import Mathlib

/-
  Verification development for the school-records repository
  (entities Student / Instructor / Course, JSON persistence, relational
  persistence).

  The Python sources are shallowly embedded: every definition below is a
  direct translation of the function of the same name in the repository
  (src/person.py, src/student.py, src/instructor.py, src/course.py,
  src/data_manager.py, src/database_manager.py).  Python dictionaries are
  modelled as insertion-ordered association lists, Python exceptions as
  Except / Option error values, and the handful of standard-library string
  operations used by the code (str.strip, str.isalpha, int(), the e-mail
  regular expression) as executable character-list functions.
-/

set_option maxRecDepth 4000
set_option linter.unusedVariables false

deriving instance DecidableEq for Except

/-! ## String helpers modelling the Python standard library -/

/-- Model of str.strip on the underlying character list. -/
def stripChars (l : List Char) : List Char :=
  ((l.dropWhile Char.isWhitespace).reverse.dropWhile Char.isWhitespace).reverse

/-- Model of str.strip. -/
def pyStrip (s : String) : String := ⟨stripChars s.data⟩

/-- Model of str.isalpha: nonempty and every character alphabetic. -/
def pyIsAlpha (s : String) : Bool := !s.data.isEmpty && s.data.all Char.isAlpha

/-- Numeric value of a digit string. -/
def digitsVal (l : List Char) : Nat := l.foldl (fun a c => a * 10 + (c.toNat - 48)) 0

/-- Model of Python int(s) for strings: optional surrounding whitespace,
optional sign, then decimal digits; anything else raises ValueError
(modelled as none). -/
def pyIntOfString? (s : String) : Option Int :=
  match stripChars s.data with
  | [] => none
  | c :: rest =>
    if c == '-' then
      if rest.isEmpty then none
      else if rest.all Char.isDigit then some (-(digitsVal rest : Int)) else none
    else if c == '+' then
      if rest.isEmpty then none
      else if rest.all Char.isDigit then some ((digitsVal rest : Int)) else none
    else if (c :: rest).all Char.isDigit then some ((digitsVal (c :: rest) : Int)) else none

/-- Characters allowed in the local part of the e-mail pattern:
letters, digits, dot, underscore, percent, plus, minus. -/
def isLocalChar (c : Char) : Bool :=
  c.isAlpha || c.isDigit || c == '.' || c == '_' || c == '%' || c == '+' || c == '-'

/-- Characters allowed in the domain part before the final dot:
letters, digits, dot, minus. -/
def isDomainChar (c : Char) : Bool :=
  c.isAlpha || c.isDigit || c == '.' || c == '-'

/-- Split a character list on a separator character (model of str.split). -/
def splitOnChar (sep : Char) : List Char → List (List Char)
  | [] => [[]]
  | c :: rest =>
    let r := splitOnChar sep rest
    if c == sep then [] :: r
    else
      match r with
      | [] => [[c]]
      | h :: t => (c :: h) :: t

/-- Rejoin segments with dots (inverse of splitting on a dot). -/
def joinDots : List (List Char) → List Char
  | [] => []
  | [x] => x
  | x :: xs => x ++ '.' :: joinDots xs

/-- Decides membership in the language of the e-mail regular expression of
src/person.py: one or more local characters, an at sign, one or more domain
characters, a dot, and at least two letters.  Strings in that language have
exactly one at sign, and the trailing letter block is delimited by the last
dot, so splitting on those separators decides the language. -/
def emailOk (s : String) : Bool :=
  match splitOnChar '@' s.data with
  | [loc, dom] =>
    (!loc.isEmpty && loc.all isLocalChar) &&
    (match splitOnChar '.' dom with
     | [] => false
     | [_] => false
     | ps =>
       let t := ps.getLastD []
       let a := joinDots ps.dropLast
       (!a.isEmpty && a.all isDomainChar) && (decide (2 ≤ t.length) && t.all Char.isAlpha))
  | _ => false

/-! ## Person (src/person.py) -/

/-- A Python value passed as an age: an int, a str, or None. -/
inductive AgeValue where
  | intv (n : Int)
  | strv (s : String)
  | nonev
deriving DecidableEq

/-- Model of int(age) for the values validate_age can receive. -/
def pyInt? : AgeValue → Option Int
  | .intv n => some n
  | .strv s => pyIntOfString? s
  | .nonev => none

structure Person where
  name : String
  age : Int
  email : String
deriving DecidableEq

namespace Person

/-- Person.validate_name: empty name and non-alphabetic name are rejected,
otherwise the stripped name is returned. -/
def validate_name (name : String) : Except String String :=
  if name == "" then .error "Name cannot be empty"
  else if !(pyIsAlpha name) then .error "Name must be alphabetic."
  else .ok (pyStrip name)

/-- Person.validate_email: empty rejected, then the regular-expression
match decides. -/
def validate_email (email : String) : Except String String :=
  if email == "" then .error "Email cannot be empty"
  else if emailOk email then .ok email
  else .error "Invalid email format"

/-- Person.validate_age: None rejected, then int() conversion, then the
range check 1 <= age <= 120. -/
def validate_age (age : AgeValue) : Except String Int :=
  match age with
  | .nonev => .error "Age cannot be empty"
  | a =>
    match pyInt? a with
    | none => .error "Age must be a number."
    | some n =>
      if 1 ≤ n ∧ n ≤ 120 then .ok n else .error "Age must be between 1 and 120."

/-- Person.__init__: stores name.strip() WITHOUT running validate_name
(the source never calls it in the constructor), then validates age and
email. -/
def init (name : String) (age : AgeValue) (email : String) : Except String Person := do
  let a ← validate_age age
  let e ← validate_email email
  return { name := pyStrip name, age := a, email := e }

end Person

/-! ## Student (src/student.py) -/

structure Student where
  name : String
  age : Int
  email : String
  student_id : String
  registered_courses : List String
deriving DecidableEq

/-- Python runtime errors surfaced by from_dict: a ValueError raised by a
validator reaching the caller, or a NameError from reading a local variable
that was never assigned because the try block was aborted. -/
inductive PyErr where
  | valueError (msg : String)
  | nameError (ident : String)
deriving DecidableEq

namespace Student

/-- Student.__init__: Person.__init__ then the student fields;
registered_courses defaults to the empty list. -/
def init (name : String) (age : AgeValue) (email : String) (student_id : String)
    (registered_courses : Option (List String)) : Except String Student := do
  let p ← Person.init name age email
  return { name := p.name, age := p.age, email := p.email,
           student_id := student_id,
           registered_courses := registered_courses.getD [] }

/-- The flat mapping produced by Student.to_dict / consumed by
Student.from_dict; absent keys are none. -/
structure Dict where
  name : Option String
  age : Option AgeValue
  email : Option String
  student_id : Option String
  registered_courses : Option (List String)
deriving DecidableEq

/-- Student.to_dict. -/
def to_dict (s : Student) : Dict :=
  { name := some s.name, age := some (.intv s.age), email := some s.email,
    student_id := some s.student_id,
    registered_courses := some s.registered_courses }

/-- Student.from_dict.  The source wraps the None checks and the three
validators in a try block whose except clause is pass; on any failure the
subsequent constructor call reads the local registered_courses, which was
never assigned (it is bound on the last line of the try block), so every
failure surfaces as a NameError rather than the validation ValueError.
On success the validated values are passed to the constructor. -/
def from_dict (d : Dict) : Except PyErr Student :=
  match d.name, d.age, d.email, d.student_id with
  | some nm, some ag, some em, some sid =>
    match Person.validate_name nm, Person.validate_age ag, Person.validate_email em with
    | .ok nm', .ok ag', .ok em' =>
      (Student.init nm' (.intv ag') em' sid (some (d.registered_courses.getD []))).mapError
        PyErr.valueError
    | _, _, _ => .error (.nameError "registered_courses")
  | _, _, _, _ => .error (.nameError "registered_courses")

end Student

/-! ## Instructor (src/instructor.py) -/

structure Instructor where
  name : String
  age : Int
  email : String
  instructor_id : String
  assigned_courses : List String
deriving DecidableEq

namespace Instructor

/-- Instructor.__init__. -/
def init (name : String) (age : AgeValue) (email : String) (instructor_id : String)
    (assigned_courses : Option (List String)) : Except String Instructor := do
  let p ← Person.init name age email
  return { name := p.name, age := p.age, email := p.email,
           instructor_id := instructor_id,
           assigned_courses := assigned_courses.getD [] }

/-- The flat mapping produced by Instructor.to_dict. -/
structure Dict where
  name : Option String
  age : Option AgeValue
  email : Option String
  instructor_id : Option String
  assigned_courses : Option (List String)
deriving DecidableEq

/-- Instructor.to_dict. -/
def to_dict (i : Instructor) : Dict :=
  { name := some i.name, age := some (.intv i.age), email := some i.email,
    instructor_id := some i.instructor_id,
    assigned_courses := some i.assigned_courses }

/-- Instructor.from_dict.  As in Student.from_dict the try block swallows
every exception; the locals are assigned in the order name, age, email,
instructor_id, so the constructor call after a failure raises a NameError
for the first local left unassigned. -/
def from_dict (d : Dict) : Except PyErr Instructor :=
  match Person.validate_name (d.name.getD "") with
  | .error _ => .error (.nameError "name")
  | .ok nm' =>
    match Person.validate_age (d.age.getD (.intv 0)) with
    | .error _ => .error (.nameError "age")
    | .ok ag' =>
      match Person.validate_email (d.email.getD "") with
      | .error _ => .error (.nameError "email")
      | .ok em' =>
        match d.instructor_id with
        | none => .error (.nameError "instructor_id")
        | some iid =>
          (Instructor.init nm' (.intv ag') em' iid
            (some (d.assigned_courses.getD []))).mapError PyErr.valueError

end Instructor

/-! ## Course (src/course.py) -/

structure Course where
  course_id : String
  course_name : String
  instructor : Option Instructor
  enrolled_students : List Student
deriving DecidableEq

/-- A Python value passed to Course.add_instructor / Course.add_student:
an Instructor, a Student, or some other object (isinstance decides). -/
inductive PyObj where
  | instr (i : Instructor)
  | student (s : Student)
  | other (tag : String)
deriving DecidableEq

namespace Course

/-- Course.__init__.  The source assigns self.instructor = None, ignoring
the instructor parameter entirely; enrolled_students defaults to []. -/
def init (course_id : String) (course_name : String)
    (instructor : Option Instructor) (enrolled_students : Option (List Student)) : Course :=
  { course_id := course_id, course_name := course_name,
    instructor := none,
    enrolled_students := enrolled_students.getD [] }

/-- Course.add_instructor: ValueError unless the argument is an
Instructor, otherwise unconditional overwrite of self.instructor.
The pair returns the updated course and the raised error, if any. -/
def add_instructor (c : Course) (v : PyObj) : Course × Option String :=
  match v with
  | .instr i => ({ c with instructor := some i }, none)
  | _ => (c, some "Only an Instructor can be assigned to the course.")

/-- Course.add_student: ValueError unless the argument is a Student,
otherwise append unless already enrolled. -/
def add_student (c : Course) (v : PyObj) : Course × Option String :=
  match v with
  | .student s =>
    (if s ∈ c.enrolled_students then c
     else { c with enrolled_students := c.enrolled_students ++ [s] }, none)
  | _ => (c, some "Only a Student can be enrolled in the course.")

/-- The nested mapping produced by Course.to_dict: the instructor mapping
or a null marker, and the list of student mappings. -/
structure Dict where
  course_id : String
  course_name : String
  instructor : Option Instructor.Dict
  enrolled_students : List Student.Dict
deriving DecidableEq

/-- Course.to_dict. -/
def to_dict (c : Course) : Dict :=
  { course_id := c.course_id, course_name := c.course_name,
    instructor := c.instructor.map Instructor.to_dict,
    enrolled_students := c.enrolled_students.map Student.to_dict }

/-- Course.from_dict: rebuild the instructor when the stored mapping is
truthy, rebuild every student, then call the constructor (which, in the
source, throws the rebuilt instructor away). -/
def from_dict (d : Dict) : Except PyErr Course := do
  let instr ← match d.instructor with
    | some idict => (Instructor.from_dict idict).map some
    | none => pure (none : Option Instructor)
  let studs ← d.enrolled_students.mapM Student.from_dict
  return Course.init d.course_id d.course_name instr (some studs)

end Course

/-! ## Entity mutation operations (src/student.py, src/instructor.py) -/

namespace Student

/-- Student.register_course: append the course identifier unless already
present. -/
def register_course (s : Student) (c : Course) : Student :=
  if c.course_id ∈ s.registered_courses then s
  else { s with registered_courses := s.registered_courses ++ [c.course_id] }

end Student

namespace Instructor

/-- Instructor.assign_course: append the course identifier unless already
present. -/
def assign_course (i : Instructor) (c : Course) : Instructor :=
  if c.course_id ∈ i.assigned_courses then i
  else { i with assigned_courses := i.assigned_courses ++ [c.course_id] }

end Instructor

/-! ## Python dictionaries as insertion-ordered association lists

A Python dict is modelled as a list of (key, value) pairs in insertion
order with (in well-formed states) pairwise distinct keys.  Writing to an
existing key updates the stored pair in place; writing a fresh key appends.
These are the semantics save_data in src/data_manager.py relies on. -/

namespace PyDict

variable {A : Type}

/-- The key list of a dict, in insertion order. -/
def keys (d : List (String × A)) : List String := d.map Prod.fst

/-- d.get(k): the value of the first (and in a well-formed dict only)
pair whose key is k. -/
def dictGet : List (String × A) → String → Option A
  | [], _ => none
  | p :: rest, k => if p.1 = k then some p.2 else dictGet rest k

/-- k in d. -/
def hasKey (d : List (String × A)) (k : String) : Bool := (dictGet d k).isSome

/-- d[k] = v: in-place update when the key exists, append otherwise. -/
def dictSet (d : List (String × A)) (k : String) (v : A) : List (String × A) :=
  if hasKey d k then d.map (fun p => if p.1 = k then (k, v) else p)
  else d ++ [(k, v)]

/-- Python dict(old, **upd) — the double-star merge of two dicts: every
pair of upd written into old in order, updating values taking precedence. -/
def dictMerge (old upd : List (String × A)) : List (String × A) :=
  upd.foldl (fun acc p => dictSet acc p.1 p.2) old

theorem dictGet_cons {p : String × A} {rest : List (String × A)} {k : String} :
    dictGet (p :: rest) k = if p.1 = k then some p.2 else dictGet rest k := rfl

theorem dictGet_eq_none_iff {d : List (String × A)} {k : String} :
    dictGet d k = none ↔ k ∉ keys d := by
  induction d with
  | nil => simp [dictGet, keys]
  | cons p rest ih =>
    by_cases h : p.1 = k
    · simp [dictGet, h, keys]
    · simp [dictGet, h, keys, ih, Ne.symm h]

theorem hasKey_iff {d : List (String × A)} {k : String} :
    hasKey d k = true ↔ k ∈ keys d := by
  rw [hasKey, Option.isSome_iff_ne_none]
  constructor
  · intro h
    by_contra hk
    exact h (dictGet_eq_none_iff.mpr hk)
  · intro h hn
    exact (dictGet_eq_none_iff.mp hn) h

theorem hasKey_false_iff {d : List (String × A)} {k : String} :
    hasKey d k = false ↔ k ∉ keys d := by
  rw [← dictGet_eq_none_iff, hasKey]
  cases dictGet d k <;> simp
theorem dictGet_mem {d : List (String × A)} {k : String} {v : A}
    (h : dictGet d k = some v) : (k, v) ∈ d := by
  induction d with
  | nil => simp [dictGet] at h
  | cons p rest ih =>
    rw [dictGet_cons] at h
    by_cases hp : p.1 = k
    · rw [if_pos hp] at h
      refine List.mem_cons.mpr (Or.inl ?_)
      obtain ⟨pk, pv⟩ := p
      obtain rfl : pk = k := hp
      obtain rfl : pv = v := Option.some.inj h
      rfl
    · rw [if_neg hp] at h
      exact List.mem_cons_of_mem _ (ih h)

theorem dictGet_of_mem_nodup {d : List (String × A)} {k : String} {v : A}
    (hnd : (keys d).Nodup) (h : (k, v) ∈ d) : dictGet d k = some v := by
  induction d with
  | nil => simp at h
  | cons p rest ih =>
    rw [keys, List.map_cons, List.nodup_cons] at hnd
    rcases List.mem_cons.mp h with h | h
    · subst h
      simp [dictGet]
    · have hk : k ∈ keys rest := List.mem_map_of_mem Prod.fst h
      have hne : p.1 ≠ k := fun hc => hnd.1 (hc ▸ hk)
      rw [dictGet_cons, if_neg hne]
      exact ih hnd.2 h

theorem map_set_id {d : List (String × A)} {k : String} {v : A}
    (h : k ∉ keys d) : d.map (fun p => if p.1 = k then (k, v) else p) = d := by
  induction d with
  | nil => rfl
  | cons p rest ih =>
    rw [keys, List.map_cons, List.mem_cons] at h
    push_neg at h
    rw [List.map_cons, if_neg (Ne.symm h.1), ih h.2]

theorem dictGet_map_set {d : List (String × A)} {k : String} {v : A}
    (h : hasKey d k = true) :
    dictGet (d.map (fun p => if p.1 = k then (k, v) else p)) k = some v := by
  induction d with
  | nil => simp [hasKey, dictGet] at h
  | cons p rest ih =>
    by_cases hp : p.1 = k
    · rw [List.map_cons, if_pos hp, dictGet_cons]
      simp
    · rw [List.map_cons, if_neg hp, dictGet_cons, if_neg hp]
      apply ih
      rwa [hasKey, dictGet_cons, if_neg hp] at h

theorem dictGet_append_right {d : List (String × A)} {k : String} {v : A}
    (h : k ∉ keys d) : dictGet (d ++ [(k, v)]) k = some v := by
  induction d with
  | nil => simp [dictGet]
  | cons p rest ih =>
    rw [keys, List.map_cons, List.mem_cons] at h
    push_neg at h
    rw [List.cons_append, dictGet_cons, if_neg (Ne.symm h.1)]
    exact ih h.2

theorem dictGet_dictSet_self {d : List (String × A)} {k : String} {v : A} :
    dictGet (dictSet d k v) k = some v := by
  rw [dictSet]
  by_cases h : hasKey d k
  · rw [if_pos h]
    exact dictGet_map_set h
  · rw [if_neg h]
    exact dictGet_append_right (hasKey_false_iff.mp (by simpa using h))

theorem dictGet_map_set_ne {d : List (String × A)} {k k' : String} {v : A}
    (h : k' ≠ k) :
    dictGet (d.map (fun p => if p.1 = k then (k, v) else p)) k' = dictGet d k' := by
  induction d with
  | nil => rfl
  | cons p rest ih =>
    by_cases hp : p.1 = k
    · rw [List.map_cons, if_pos hp, dictGet_cons, dictGet_cons]
      rw [if_neg (show ¬((k, v).1 = k') from fun hc => (Ne.symm h) hc),
          if_neg (show ¬(p.1 = k') from fun hc => (Ne.symm h) (hp.symm.trans hc))]
      exact ih
    · rw [List.map_cons, if_neg hp, dictGet_cons, dictGet_cons]
      by_cases hq : p.1 = k'
      · rw [if_pos hq, if_pos hq]
      · rw [if_neg hq, if_neg hq]
        exact ih

theorem dictGet_append_single_ne {d : List (String × A)} {k k' : String} {v : A}
    (h : k' ≠ k) : dictGet (d ++ [(k, v)]) k' = dictGet d k' := by
  induction d with
  | nil => simp [dictGet, Ne.symm h]
  | cons p rest ih =>
    rw [List.cons_append, dictGet_cons, dictGet_cons]
    by_cases hq : p.1 = k'
    · rw [if_pos hq, if_pos hq]
    · rw [if_neg hq, if_neg hq]
      exact ih

theorem dictGet_dictSet_ne {d : List (String × A)} {k k' : String} {v : A}
    (h : k' ≠ k) : dictGet (dictSet d k v) k' = dictGet d k' := by
  rw [dictSet]
  by_cases hm : hasKey d k
  · rw [if_pos hm]
    exact dictGet_map_set_ne h
  · rw [if_neg hm]
    exact dictGet_append_single_ne h

theorem keys_dictSet_of_hasKey {d : List (String × A)} {k : String} {v : A}
    (h : hasKey d k = true) : keys (dictSet d k v) = keys d := by
  rw [dictSet, if_pos h, keys, keys, List.map_map]
  apply List.map_congr_left
  intro p _
  by_cases hp : p.1 = k
  · simp [hp]
  · simp [hp]

theorem keys_dictSet_of_not_hasKey {d : List (String × A)} {k : String} {v : A}
    (h : hasKey d k = false) : keys (dictSet d k v) = keys d ++ [k] := by
  rw [dictSet, if_neg (by simp [h]), keys, keys, List.map_append]
  rfl

theorem nodup_keys_dictSet {d : List (String × A)} {k : String} {v : A}
    (h : (keys d).Nodup) : (keys (dictSet d k v)).Nodup := by
  by_cases hm : hasKey d k
  · rwa [keys_dictSet_of_hasKey hm]
  · rw [keys_dictSet_of_not_hasKey (by simpa using hm)]
    simp only [List.nodup_append, List.nodup_cons]
    refine ⟨h, by simp, ?_⟩
    intro a ha
    simp only [List.mem_singleton]
    intro hc
    subst hc
    exact (hasKey_false_iff.mp (by simpa using hm)) ha

theorem dictSet_mem_cases {d : List (String × A)} {k : String} {v : A} {q : String × A}
    (h : q ∈ dictSet d k v) : q ∈ d ∨ q = (k, v) := by
  rw [dictSet] at h
  by_cases hm : hasKey d k
  · rw [if_pos hm] at h
    rcases List.mem_map.mp h with ⟨p, hp, he⟩
    by_cases hc : p.1 = k
    · right
      rw [if_pos hc] at he
      exact he.symm
    · left
      rw [if_neg hc] at he
      exact he ▸ hp
  · rw [if_neg hm] at h
    rcases List.mem_append.mp h with h | h
    · exact Or.inl h
    · exact Or.inr (List.mem_singleton.mp h)

theorem map_set_same {d : List (String × A)} {k : String} {v : A}
    (hnd : (keys d).Nodup) (h : dictGet d k = some v) :
    d.map (fun p => if p.1 = k then (k, v) else p) = d := by
  induction d with
  | nil => rfl
  | cons p rest ih =>
    rw [keys, List.map_cons, List.nodup_cons] at hnd
    rw [dictGet_cons] at h
    by_cases hp : p.1 = k
    · rw [if_pos hp] at h
      rw [List.map_cons, if_pos hp]
      have hk : k ∉ keys rest := hp ▸ hnd.1
      have hpair : (k, v) = p := by
        obtain ⟨pk, pv⟩ := p
        obtain rfl : pk = k := hp
        obtain rfl : pv = v := Option.some.inj h
        rfl
      rw [map_set_id hk, hpair]
    · rw [if_neg hp] at h
      rw [List.map_cons, if_neg hp, ih hnd.2 h]

theorem dictSet_same {d : List (String × A)} {k : String} {v : A}
    (hnd : (keys d).Nodup) (h : dictGet d k = some v) : dictSet d k v = d := by
  rw [dictSet, if_pos (by rw [hasKey, h]; rfl)]
  exact map_set_same hnd h

theorem dictMerge_nil {a : List (String × A)} : dictMerge a [] = a := rfl

theorem dictMerge_cons {a : List (String × A)} {p : String × A} {r : List (String × A)} :
    dictMerge a (p :: r) = dictMerge (dictSet a p.1 p.2) r := rfl

theorem nodup_keys_dictMerge {a r : List (String × A)}
    (h : (keys a).Nodup) : (keys (dictMerge a r)).Nodup := by
  induction r generalizing a with
  | nil => exact h
  | cons p rest ih =>
    rw [dictMerge_cons]
    exact ih (nodup_keys_dictSet h)

theorem dictGet_dictMerge {a r : List (String × A)} {k : String}
    (hnd : (keys r).Nodup) :
    dictGet (dictMerge a r) k =
      match dictGet r k with
      | some v => some v
      | none => dictGet a k := by
  induction r generalizing a with
  | nil => simp [dictMerge_nil, dictGet]
  | cons p rest ih =>
    rw [keys, List.map_cons, List.nodup_cons] at hnd
    rw [dictMerge_cons, ih hnd.2, dictGet_cons]
    by_cases hp : p.1 = k
    · rw [if_pos hp]
      have hr : dictGet rest k = none :=
        dictGet_eq_none_iff.mpr (fun hc => hnd.1 (hp ▸ hc))
      rw [hr, hp]
      simp [dictGet_dictSet_self]
    · rw [if_neg hp]
      cases hv : dictGet rest k with
      | some v => simp
      | none => simp [dictGet_dictSet_ne (Ne.symm hp)]

theorem dictMerge_absorb {y r : List (String × A)}
    (hy : (keys y).Nodup) (hr : ∀ p ∈ r, dictGet y p.1 = some p.2) :
    dictMerge y r = y := by
  induction r with
  | nil => rfl
  | cons p rest ih =>
    rw [dictMerge_cons, dictSet_same hy (hr p (List.mem_cons_self p rest))]
    exact ih (fun q hq => hr q (List.mem_cons_of_mem p hq))

theorem merge_merge_absorb {old r : List (String × A)}
    (hold : (keys old).Nodup) (hr : (keys r).Nodup) :
    dictMerge (dictMerge old r) r = dictMerge old r := by
  apply dictMerge_absorb (nodup_keys_dictMerge hold)
  intro p hp
  rw [dictGet_dictMerge hr, dictGet_of_mem_nodup hr hp]

end PyDict

/-! ## DataManager.save_data (src/data_manager.py)

The function reads the prior file as a JSON array (missing file or
malformed JSON giving the empty array), indexes its dict entries that
contain the key field by the stringified key value, then upserts the
serialized mapping of every non-None incoming object whose stringified
key value is non-empty, shallow-merging into any record already stored
under that key, and finally writes out the indexed values in order.
The JSON text written is a deterministic function of that value list, so
file content is modelled as the value list itself.  Records are dicts
over an arbitrary value type V, with vstr modelling Python str() on V. -/

namespace DataManager

open PyDict

variable {V : Type}

/-- A JSON record: a dict from string keys to values of type V. -/
abbrev Record (V : Type) := List (String × V)

/-- str(record.get(key_field)): the stringified key value, with Python
str(None) = "None" when the key field is absent. -/
def pyKeyOf (vstr : V → String) (kf : String) (r : Record V) : String :=
  match dictGet r kf with
  | some v => vstr v
  | none => "None"

/-- One step of the indexing comprehension over the prior file:
records lacking the key field are skipped. -/
def indexStep (vstr : V → String) (kf : String)
    (acc : List (String × Record V)) (r : Record V) : List (String × Record V) :=
  if hasKey r kf then dictSet acc (pyKeyOf vstr kf r) r else acc

/-- by_key built from the prior file contents. -/
def indexRecords (vstr : V → String) (kf : String) (prior : List (Record V)) :
    List (String × Record V) :=
  prior.foldl (indexStep vstr kf) []

/-- One step of the upsert loop: skip None objects and empty keys,
otherwise store the shallow merge of the stored record (or the empty
dict) with the incoming record. -/
def upsertStep (vstr : V → String) (kf : String)
    (acc : List (String × Record V)) (obj : Option (Record V)) :
    List (String × Record V) :=
  match obj with
  | none => acc
  | some r =>
    let key := pyKeyOf vstr kf r
    if key = "" then acc
    else dictSet acc key (dictMerge ((dictGet acc key).getD []) r)

/-- The by_key index after the whole save_data run. -/
def saveIndex (vstr : V → String) (kf : String)
    (prior : List (Record V)) (data : List (Option (Record V))) :
    List (String × Record V) :=
  data.foldl (upsertStep vstr kf) (indexRecords vstr kf prior)

/-- DataManager.save_data: the list of records written back to the file,
list(by_key.values()). -/
def save_data (vstr : V → String) (kf : String)
    (prior : List (Record V)) (data : List (Option (Record V))) : List (Record V) :=
  (saveIndex vstr kf prior data).map Prod.snd

/-- The effective key contributed by one element of the incoming
collection: none for None objects and for empty stringified keys. -/
def effKey (vstr : V → String) (kf : String) : Option (Record V) → Option String
  | none => none
  | some r => if pyKeyOf vstr kf r = "" then none else some (pyKeyOf vstr kf r)

/-- The effective keys of the incoming collection, in order. -/
def effKeys (vstr : V → String) (kf : String) (data : List (Option (Record V))) :
    List String :=
  data.filterMap (effKey vstr kf)

/-- Well-formedness of a by_key index as save_data produces it: distinct
keys, every stored record keyed under its own stringified key value,
containing the key field, with duplicate-free keys inside the record. -/
def GoodIdx (vstr : V → String) (kf : String) (idx : List (String × Record V)) : Prop :=
  (keys idx).Nodup ∧
    ∀ p ∈ idx, pyKeyOf vstr kf p.2 = p.1 ∧ hasKey p.2 kf = true ∧ (keys p.2).Nodup

/-- Folding steps whose effective keys avoid k leaves the lookup at k
unchanged. -/
theorem dictGet_fold_of_not_effKey {vstr : V → String} {kf : String}
    {data : List (Option (Record V))} {acc : List (String × Record V)} {k : String}
    (h : k ∉ effKeys vstr kf data) :
    dictGet (data.foldl (upsertStep vstr kf) acc) k = dictGet acc k := by
  induction data generalizing acc with
  | nil => rfl
  | cons obj rest ih =>
    rw [List.foldl_cons]
    cases obj with
    | none =>
      have hk : k ∉ effKeys vstr kf rest := by
        simpa [effKeys, effKey, List.filterMap_cons] using h
      exact ih hk
    | some r =>
      by_cases he : pyKeyOf vstr kf r = ""
      · have hs : upsertStep vstr kf acc (some r) = acc := by
          simp [upsertStep, he]
        have hk : k ∉ effKeys vstr kf rest := by
          simpa [effKeys, effKey, List.filterMap_cons, he] using h
        rw [hs]
        exact ih hk
      · have hsplit : effKeys vstr kf (some r :: rest) =
            pyKeyOf vstr kf r :: effKeys vstr kf rest := by
          simp [effKeys, effKey, List.filterMap_cons, he]
        rw [hsplit, List.mem_cons] at h
        push_neg at h
        have hs : upsertStep vstr kf acc (some r) =
            dictSet acc (pyKeyOf vstr kf r)
              (dictMerge ((dictGet acc (pyKeyOf vstr kf r)).getD []) r) := by
          simp [upsertStep, he]
        rw [hs, ih h.2, dictGet_dictSet_ne h.1]

/-- A fold whose every step fixes the state fixes the state. -/
theorem foldl_fixed {α β : Type} {f : α → β → α} {x : α} {l : List β}
    (h : ∀ b ∈ l, f x b = x) : l.foldl f x = x := by
  induction l with
  | nil => rfl
  | cons b rest ih =>
    rw [List.foldl_cons, h b (List.mem_cons_self b rest)]
    exact ih (fun c hc => h c (List.mem_cons_of_mem b hc))

/-- GoodIdx is preserved by one indexing step over a record with
duplicate-free keys. -/
theorem goodIdx_indexStep {vstr : V → String} {kf : String}
    {acc : List (String × Record V)} {r : Record V}
    (hg : GoodIdx vstr kf acc) (hr : (keys r).Nodup) :
    GoodIdx vstr kf (indexStep vstr kf acc r) := by
  rw [indexStep]
  by_cases hk : hasKey r kf
  · rw [if_pos hk]
    refine ⟨nodup_keys_dictSet hg.1, ?_⟩
    intro p hp
    rcases dictSet_mem_cases hp with hp | hp
    · exact hg.2 p hp
    · subst hp
      exact ⟨rfl, hk, hr⟩
  · rw [if_neg hk]
    exact hg

/-- GoodIdx is preserved along a fold of indexing steps. -/
theorem goodIdx_foldl_indexStep {vstr : V → String} {kf : String} :
    ∀ (rs : List (Record V)) (acc : List (String × Record V)),
      (∀ r ∈ rs, (keys r).Nodup) → GoodIdx vstr kf acc →
      GoodIdx vstr kf (rs.foldl (indexStep vstr kf) acc)
  | [], acc, _, h => h
  | r :: rest, acc, hr, h =>
    goodIdx_foldl_indexStep rest _ (fun q hq => hr q (List.mem_cons_of_mem r hq))
      (goodIdx_indexStep h (hr r (List.mem_cons_self r rest)))

/-- The index of the prior file is well-formed whenever the prior records
have duplicate-free keys. -/
theorem goodIdx_indexRecords {vstr : V → String} {kf : String}
    {prior : List (Record V)}
    (hp : ∀ r ∈ prior, (keys r).Nodup) :
    GoodIdx vstr kf (indexRecords vstr kf prior) :=
  goodIdx_foldl_indexStep prior [] hp ⟨List.nodup_nil, by simp⟩

/-- GoodIdx is preserved by one upsert step over an incoming record that
contains the key field and has duplicate-free keys. -/
theorem goodIdx_upsertStep {vstr : V → String} {kf : String}
    {acc : List (String × Record V)} {obj : Option (Record V)}
    (hg : GoodIdx vstr kf acc)
    (hobj : ∀ r, obj = some r → hasKey r kf = true ∧ (keys r).Nodup) :
    GoodIdx vstr kf (upsertStep vstr kf acc obj) := by
  cases obj with
  | none => exact hg
  | some r =>
    obtain ⟨hk, hr⟩ := hobj r rfl
    rw [upsertStep]
    by_cases he : pyKeyOf vstr kf r = ""
    · simpa [he] using hg
    · simp only [he, if_false]
      have hold : (keys ((dictGet acc (pyKeyOf vstr kf r)).getD [])).Nodup := by
        cases hv : dictGet acc (pyKeyOf vstr kf r) with
        | none => simp [keys]
        | some o =>
          have := (hg.2 _ (dictGet_mem hv)).2.2
          simpa using this
      have hmk : dictGet (dictMerge ((dictGet acc (pyKeyOf vstr kf r)).getD []) r) kf
          = dictGet r kf := by
        rw [dictGet_dictMerge hr]
        cases hvv : dictGet r kf with
        | some v => rfl
        | none =>
          rw [hasKey, hvv] at hk
          simp at hk
      refine ⟨nodup_keys_dictSet hg.1, ?_⟩
      intro p hp
      rcases dictSet_mem_cases hp with hp | hp
      · exact hg.2 p hp
      · subst hp
        refine ⟨?_, ?_, nodup_keys_dictMerge hold⟩
        · rw [pyKeyOf, hmk]
          rfl
        · rw [hasKey, hmk]
          exact hk

theorem keys_append {a b : List (String × Record V)} :
    keys (a ++ b) = keys a ++ keys b := List.map_append Prod.fst a b

/-- Folding indexing steps over records with fresh, pairwise distinct keys
appends the keyed records in order. -/
theorem foldl_indexStep_append {vstr : V → String} {kf : String} :
    ∀ (rs : List (Record V)) (acc : List (String × Record V)),
      (∀ r ∈ rs, hasKey r kf = true) →
      (rs.map (pyKeyOf vstr kf)).Nodup →
      (∀ r ∈ rs, pyKeyOf vstr kf r ∉ keys acc) →
      rs.foldl (indexStep vstr kf) acc =
        acc ++ rs.map (fun r => (pyKeyOf vstr kf r, r)) := by
  intro rs
  induction rs with
  | nil => intro acc _ _ _; simp
  | cons r rest ih =>
    intro acc hk hnd hfresh
    rw [List.map_cons, List.nodup_cons] at hnd
    rw [List.foldl_cons]
    have hfk : hasKey acc (pyKeyOf vstr kf r) = false :=
      hasKey_false_iff.mpr (hfresh r (List.mem_cons_self r rest))
    have hstep : indexStep vstr kf acc r = acc ++ [(pyKeyOf vstr kf r, r)] := by
      rw [indexStep, if_pos (hk r (List.mem_cons_self r rest)), dictSet,
        if_neg (by simp [hfk])]
    rw [hstep, ih _ (fun q hq => hk q (List.mem_cons_of_mem r hq)) hnd.2 ?_,
      List.map_cons, List.append_assoc, List.singleton_append]
    intro q hq
    rw [keys_append]
    simp only [List.mem_append]
    push_neg
    refine ⟨hfresh q (List.mem_cons_of_mem r hq), ?_⟩
    have : pyKeyOf vstr kf q ≠ pyKeyOf vstr kf r :=
      fun hc => hnd.1 (hc ▸ List.mem_map_of_mem (pyKeyOf vstr kf) hq)
    simp [keys, this]

/-- Re-reading the file written from a well-formed index rebuilds exactly
that index: this is the first half of idempotence. -/
theorem indexRecords_rebuild {vstr : V → String} {kf : String}
    {idx : List (String × Record V)} (hg : GoodIdx vstr kf idx) :
    indexRecords vstr kf (idx.map Prod.snd) = idx := by
  rw [indexRecords, foldl_indexStep_append]
  · rw [List.nil_append, List.map_map]
    have hcg : ∀ p ∈ idx, ((fun r => (pyKeyOf vstr kf r, r)) ∘ Prod.snd) p = id p := by
      intro p hp
      have h1 := (hg.2 p hp).1
      show (pyKeyOf vstr kf p.2, p.2) = p
      exact Prod.ext h1 rfl
    rw [List.map_congr_left hcg, List.map_id]
  · intro r hr
    rcases List.mem_map.mp hr with ⟨p, hp, he⟩
    exact he ▸ (hg.2 p hp).2.1
  · rw [List.map_map]
    have hcg : idx.map (pyKeyOf vstr kf ∘ Prod.snd) = keys idx := by
      apply List.map_congr_left
      intro p hp
      exact (hg.2 p hp).1
    rw [hcg]
    exact hg.1
  · intro r hr
    simp [keys]

/-- One upsert step keeps every stored record duplicate-key-free. -/
theorem upsertStep_values_nodup {vstr : V → String} {kf : String}
    {acc : List (String × Record V)} {obj : Option (Record V)}
    (ha : ∀ p ∈ acc, (keys p.2).Nodup)
    (hobj : ∀ r, obj = some r → (keys r).Nodup) :
    ∀ p ∈ upsertStep vstr kf acc obj, (keys p.2).Nodup := by
  cases obj with
  | none => exact ha
  | some r =>
    rw [upsertStep]
    by_cases he : pyKeyOf vstr kf r = ""
    · simpa [he] using ha
    · simp only [he, if_false]
      intro p hp
      rcases dictSet_mem_cases hp with hp | hp
      · exact ha p hp
      · subst hp
        apply nodup_keys_dictMerge
        cases hv : dictGet acc (pyKeyOf vstr kf r) with
        | none => simp [keys]
        | some o => simpa using ha _ (dictGet_mem hv)

/-- If the incoming effective keys are pairwise distinct, then after the
upsert loop the record stored under the key of each incoming record
absorbs that record: merging it in again changes nothing. -/
theorem upsert_absorbed {vstr : V → String} {kf : String} :
    ∀ (data : List (Option (Record V))) (acc : List (String × Record V)),
      (∀ p ∈ acc, (keys p.2).Nodup) →
      (∀ r, some r ∈ data → (keys r).Nodup) →
      (effKeys vstr kf data).Nodup →
      ∀ r, some r ∈ data → pyKeyOf vstr kf r ≠ "" →
        ∃ m, dictGet (data.foldl (upsertStep vstr kf) acc) (pyKeyOf vstr kf r) = some m
          ∧ dictMerge m r = m := by
  intro data
  induction data with
  | nil =>
    intro acc _ _ _ r hr
    simp at hr
  | cons obj rest ih =>
    intro acc ha hd hkeys r hr hne
    have ha' : ∀ p ∈ upsertStep vstr kf acc obj, (keys p.2).Nodup :=
      upsertStep_values_nodup ha
        (fun q hq => hd q (hq ▸ List.mem_cons_self obj rest))
    have hd' : ∀ q, some q ∈ rest → (keys q).Nodup :=
      fun q hq => hd q (List.mem_cons_of_mem obj hq)
    rw [List.foldl_cons]
    rcases List.mem_cons.mp hr with hr | hr
    · -- r is contributed by the head step
      have hobj : obj = some r := hr.symm
      subst hobj
      have hsplit : effKeys vstr kf (some r :: rest) =
          pyKeyOf vstr kf r :: effKeys vstr kf rest := by
        simp [effKeys, effKey, List.filterMap_cons, hne]
      rw [hsplit, List.nodup_cons] at hkeys
      have hold : (keys ((dictGet acc (pyKeyOf vstr kf r)).getD [])).Nodup := by
        cases hv : dictGet acc (pyKeyOf vstr kf r) with
        | none => simp [keys]
        | some o => simpa using ha _ (dictGet_mem hv)
      have hstep : upsertStep vstr kf acc (some r) =
          dictSet acc (pyKeyOf vstr kf r)
            (dictMerge ((dictGet acc (pyKeyOf vstr kf r)).getD []) r) := by
        simp [upsertStep, hne]
      refine ⟨dictMerge ((dictGet acc (pyKeyOf vstr kf r)).getD []) r, ?_, ?_⟩
      · rw [hstep, dictGet_fold_of_not_effKey hkeys.1, dictGet_dictSet_self]
      · exact merge_merge_absorb hold (hd r (List.mem_cons_self _ rest))
    · -- r comes later: recurse with the updated accumulator
      have hkeys' : (effKeys vstr kf rest).Nodup := by
        cases obj with
        | none => simpa [effKeys, effKey, List.filterMap_cons] using hkeys
        | some r0 =>
          by_cases he0 : pyKeyOf vstr kf r0 = ""
          · simpa [effKeys, effKey, List.filterMap_cons, he0] using hkeys
          · have : effKeys vstr kf (some r0 :: rest) =
                pyKeyOf vstr kf r0 :: effKeys vstr kf rest := by
              simp [effKeys, effKey, List.filterMap_cons, he0]
            rw [this, List.nodup_cons] at hkeys
            exact hkeys.2
      exact ih (upsertStep vstr kf acc obj) ha' hd' hkeys' r hr hne

/-- An incoming record with a non-empty key contributes that key to the
effective key list. -/
theorem effKey_mem {vstr : V → String} {kf : String}
    {data : List (Option (Record V))} {r : Record V}
    (h : some r ∈ data) (hne : pyKeyOf vstr kf r ≠ "") :
    pyKeyOf vstr kf r ∈ effKeys vstr kf data := by
  rw [effKeys, List.mem_filterMap]
  exact ⟨some r, h, by simp [effKey, hne]⟩

/-- With pairwise distinct incoming effective keys, the record stored
under the key of an incoming record r whose key was already present in
the accumulator with value old is exactly the shallow merge of old with
r. -/
theorem upsert_lookup_single {vstr : V → String} {kf : String} :
    ∀ (data : List (Option (Record V))) (acc : List (String × Record V))
      (r old : Record V),
      (effKeys vstr kf data).Nodup →
      some r ∈ data → pyKeyOf vstr kf r ≠ "" →
      dictGet acc (pyKeyOf vstr kf r) = some old →
      dictGet (data.foldl (upsertStep vstr kf) acc) (pyKeyOf vstr kf r) =
        some (dictMerge old r) := by
  intro data
  induction data with
  | nil =>
    intro acc r old _ hr
    simp at hr
  | cons obj rest ih =>
    intro acc r old hkeys hr hne hold
    rw [List.foldl_cons]
    rcases List.mem_cons.mp hr with heq | htl
    · -- the head step is the occurrence of r
      have hobj : obj = some r := heq.symm
      subst hobj
      have hsplit : effKeys vstr kf (some r :: rest) =
          pyKeyOf vstr kf r :: effKeys vstr kf rest := by
        simp [effKeys, effKey, List.filterMap_cons, hne]
      rw [hsplit, List.nodup_cons] at hkeys
      have hstep : upsertStep vstr kf acc (some r) =
          dictSet acc (pyKeyOf vstr kf r)
            (dictMerge ((dictGet acc (pyKeyOf vstr kf r)).getD []) r) := by
        simp [upsertStep, hne]
      rw [hstep, hold, Option.getD_some, dictGet_fold_of_not_effKey hkeys.1,
        dictGet_dictSet_self]
    · -- the occurrence of r is in the tail
      clear hr
      cases obj with
      | none =>
        have hkeys' : (effKeys vstr kf rest).Nodup := by
          simpa [effKeys, effKey, List.filterMap_cons] using hkeys
        exact ih acc r old hkeys' htl hne hold
      | some r0 =>
        by_cases he0 : pyKeyOf vstr kf r0 = ""
        · have hkeys' : (effKeys vstr kf rest).Nodup := by
            simpa [effKeys, effKey, List.filterMap_cons, he0] using hkeys
          have hstep : upsertStep vstr kf acc (some r0) = acc := by
            simp [upsertStep, he0]
          rw [hstep]
          exact ih acc r old hkeys' htl hne hold
        · have hsplit : effKeys vstr kf (some r0 :: rest) =
              pyKeyOf vstr kf r0 :: effKeys vstr kf rest := by
            simp [effKeys, effKey, List.filterMap_cons, he0]
          rw [hsplit, List.nodup_cons] at hkeys
          have hkne : pyKeyOf vstr kf r ≠ pyKeyOf vstr kf r0 :=
            fun hc => hkeys.1 (hc ▸ effKey_mem htl hne)
          have hstep : upsertStep vstr kf acc (some r0) =
              dictSet acc (pyKeyOf vstr kf r0)
                (dictMerge ((dictGet acc (pyKeyOf vstr kf r0)).getD []) r0) := by
            simp [upsertStep, he0]
          refine ih _ r old hkeys.2 htl hne ?_
          rw [hstep, dictGet_dictSet_ne hkne]
          exact hold

/-- GoodIdx is preserved along the whole upsert loop. -/
theorem goodIdx_foldl_upsert {vstr : V → String} {kf : String} :
    ∀ (data : List (Option (Record V))) (acc : List (String × Record V)),
      GoodIdx vstr kf acc →
      (∀ r, some r ∈ data → hasKey r kf = true ∧ (keys r).Nodup) →
      GoodIdx vstr kf (data.foldl (upsertStep vstr kf) acc)
  | [], acc, hg, _ => hg
  | obj :: rest, acc, hg, hd =>
    goodIdx_foldl_upsert rest _
      (goodIdx_upsertStep hg
        (fun r hr => hd r (hr ▸ List.mem_cons_self obj rest)))
      (fun r hr => hd r (List.mem_cons_of_mem obj hr))

/-- The full save index is well-formed. -/
theorem goodIdx_saveIndex {vstr : V → String} {kf : String}
    {prior : List (Record V)} {data : List (Option (Record V))}
    (hpnd : ∀ r ∈ prior, (keys r).Nodup)
    (hd : ∀ r, some r ∈ data → hasKey r kf = true ∧ (keys r).Nodup) :
    GoodIdx vstr kf (saveIndex vstr kf prior data) :=
  goodIdx_foldl_upsert data _ (goodIdx_indexRecords hpnd) hd

/-- Idempotence of the save index: saving the written file again with the
same incoming collection rebuilds the identical index. -/
theorem saveIndex_idem {vstr : V → String} {kf : String}
    {prior : List (Record V)} {data : List (Option (Record V))}
    (hd : ∀ r, some r ∈ data → hasKey r kf = true)
    (hnd : ∀ r, some r ∈ data → (keys r).Nodup)
    (hpnd : ∀ r ∈ prior, (keys r).Nodup)
    (hkeys : (effKeys vstr kf data).Nodup) :
    saveIndex vstr kf (save_data vstr kf prior data) data =
      saveIndex vstr kf prior data := by
  have hg : GoodIdx vstr kf (saveIndex vstr kf prior data) :=
    goodIdx_saveIndex hpnd (fun r hr => ⟨hd r hr, hnd r hr⟩)
  have hvals : ∀ p ∈ indexRecords vstr kf prior, (keys p.2).Nodup :=
    fun p hp => ((goodIdx_indexRecords hpnd).2 p hp).2.2
  have habs := upsert_absorbed data (indexRecords vstr kf prior) hvals hnd hkeys
  show List.foldl (upsertStep vstr kf)
      (indexRecords vstr kf (save_data vstr kf prior data)) data =
    saveIndex vstr kf prior data
  rw [save_data, indexRecords_rebuild hg]
  apply foldl_fixed
  intro obj hobj
  cases obj with
  | none => rfl
  | some r =>
    by_cases he : pyKeyOf vstr kf r = ""
    · simp [upsertStep, he]
    · obtain ⟨m, hm0, hm2⟩ := habs r hobj he
      have hm1 : dictGet (saveIndex vstr kf prior data) (pyKeyOf vstr kf r) =
          some m := hm0
      have hstep : upsertStep vstr kf (saveIndex vstr kf prior data) (some r) =
          dictSet (saveIndex vstr kf prior data) (pyKeyOf vstr kf r)
            (dictMerge ((dictGet (saveIndex vstr kf prior data)
              (pyKeyOf vstr kf r)).getD []) r) := by
        simp [upsertStep, he]
      rw [hstep, hm1, Option.getD_some, hm2]
      exact dictSet_same hg.1 hm1

/-- Idempotence of save_data at the level of the written file contents. -/
theorem save_data_idem {vstr : V → String} {kf : String}
    {prior : List (Record V)} {data : List (Option (Record V))}
    (hd : ∀ r, some r ∈ data → hasKey r kf = true)
    (hnd : ∀ r, some r ∈ data → (keys r).Nodup)
    (hpnd : ∀ r ∈ prior, (keys r).Nodup)
    (hkeys : (effKeys vstr kf data).Nodup) :
    save_data vstr kf (save_data vstr kf prior data) data =
      save_data vstr kf prior data := by
  show (saveIndex vstr kf (save_data vstr kf prior data) data).map Prod.snd = _
  rw [saveIndex_idem hd hnd hpnd hkeys]
  rfl

/-- Decidable form of: every incoming object is None or contains the key
field. -/
def incomingKeyed (kf : String) (data : List (Option (Record V))) : Bool :=
  data.all fun o =>
    match o with
    | none => true
    | some r => hasKey r kf

/-- Decidable form of: every incoming record has duplicate-free keys. -/
def incomingNodup (data : List (Option (Record V))) : Bool :=
  data.all fun o =>
    match o with
    | none => true
    | some r => decide ((keys r).Nodup)

/-- Decidable form of: every prior record has duplicate-free keys. -/
def priorNodup (prior : List (Record V)) : Bool :=
  prior.all fun r => decide ((keys r).Nodup)

theorem incomingKeyed_spec {kf : String} {data : List (Option (Record V))}
    (h : incomingKeyed kf data = true) :
    ∀ r, some r ∈ data → hasKey r kf = true := by
  intro r hr
  have := List.all_eq_true.mp h (some r) hr
  simpa using this

theorem incomingNodup_spec {data : List (Option (Record V))}
    (h : incomingNodup data = true) :
    ∀ r, some r ∈ data → (keys r).Nodup := by
  intro r hr
  have := List.all_eq_true.mp h (some r) hr
  simpa using this

theorem priorNodup_spec {prior : List (Record V)}
    (h : priorNodup prior = true) :
    ∀ r ∈ prior, (keys r).Nodup := by
  intro r hr
  have := List.all_eq_true.mp h r hr
  simpa using this

end DataManager

/-! ## DataManager.load_json (src/data_manager.py) -/

/-- The errors open/json.load can raise: FileNotFoundError from open when
the file does not exist, json.JSONDecodeError when the content does not
parse. -/
inductive LoadErr where
  | fileNotFound
  | jsonDecodeError
deriving DecidableEq

namespace DataManager

/-- DataManager.load_json: open the file and return json.load of its
content, propagating both errors unchanged and performing no schema
validation.  The filesystem is modelled by the optional file content and
the JSON parser by the function parse (json.load is Python library code
external to the repository; a failing parse is none). -/
def load_json {J : Type} (parse : String → Option J) (file : Option String) :
    Except LoadErr J :=
  match file with
  | none => .error .fileNotFound
  | some content =>
    match parse content with
    | none => .error .jsonDecodeError
    | some v => .ok v

end DataManager

/-! ## DatabaseManager (src/database_manager.py)

The SQLite database is modelled by its five tables as lists of rows in
insertion order.  Each operation opens a connection, runs its statements
and commits; a failed INSERT raises sqlite3.IntegrityError and modifies
nothing, which add_student catches and re-raises as ValueError. -/

/-- A row of the students table (student_id PRIMARY KEY, name, age,
email UNIQUE). -/
structure StudentRow where
  student_id : String
  name : String
  age : Int
  email : String
deriving DecidableEq

/-- A row of the instructors table. -/
structure InstructorRow where
  instructor_id : String
  name : String
  age : Int
  email : String
deriving DecidableEq

/-- A row of the courses table. -/
structure CourseRow where
  course_id : String
  course_name : String
deriving DecidableEq

/-- The whole database: the three entity tables and the two association
tables (student_courses rows are (student_id, course_id) pairs,
instructor_courses rows are (instructor_id, course_id) pairs). -/
structure SchoolDb where
  students : List StudentRow
  instructors : List InstructorRow
  courses : List CourseRow
  student_courses : List (String × String)
  instructor_courses : List (String × String)
deriving DecidableEq

/-- The exception raised by the storage layer on a constraint violation. -/
inductive SqlError where
  | integrityError (msg : String)
deriving DecidableEq

/-- The domain error add_student translates an IntegrityError into
(a Python ValueError with the given message). -/
inductive DbError where
  | valueError (msg : String)
deriving DecidableEq

namespace DatabaseManager

/-- INSERT INTO students: sqlite rejects a duplicate primary key or a
duplicate unique email with an IntegrityError and leaves the table
unchanged; otherwise the row is appended. -/
def sqlInsertStudent (t : List StudentRow) (s : StudentRow) :
    Except SqlError (List StudentRow) :=
  if t.any fun r => r.student_id == s.student_id then
    .error (.integrityError "UNIQUE constraint failed: students.student_id")
  else if t.any fun r => r.email == s.email then
    .error (.integrityError "UNIQUE constraint failed: students.email")
  else .ok (t ++ [s])

/-- DatabaseManager.add_student: run the INSERT; on IntegrityError raise
ValueError with the interpolated message instead, leaving the table as it
was.  The result is the table after the call together with the raised
domain error, if any; the SqlError never escapes. -/
def add_student (t : List StudentRow) (s : StudentRow) :
    List StudentRow × Option DbError :=
  match sqlInsertStudent t s with
  | .ok t2 => (t2, none)
  | .error (.integrityError m) =>
    (t, some (.valueError ("Student already exists or email is already in use: " ++ m)))

/-- DatabaseManager.delete_course: DELETE the course row, then every
student_courses row and every instructor_courses row with that
course_id. -/
def delete_course (db : SchoolDb) (course_id : String) : SchoolDb :=
  { db with
    courses := db.courses.filter fun c => !(c.course_id == course_id),
    student_courses := db.student_courses.filter fun p => !(p.2 == course_id),
    instructor_courses := db.instructor_courses.filter fun p => !(p.2 == course_id) }

/-- DatabaseManager.delete_student: DELETE the student row, then every
student_courses row with that student_id. -/
def delete_student (db : SchoolDb) (student_id : String) : SchoolDb :=
  { db with
    students := db.students.filter fun r => !(r.student_id == student_id),
    student_courses := db.student_courses.filter fun p => !(p.1 == student_id) }

end DatabaseManager

/-! ## Claim theorems -/

/-- C2.  For every course_id, course_name, instructor argument (including
a valid Instructor instance) and enrolled_students list, the Course
constructor produces a course whose instructor field is None — the
instructor argument is discarded — while the remaining fields are stored;
an instructor becomes attached only afterwards, via add_instructor. -/
theorem C2_constructor_discards_instructor (cid cname : String)
    (instr : Option Instructor) (ss : Option (List Student))
    (c : Course) (i : Instructor) :
    (Course.init cid cname instr ss).instructor = none
    ∧ (Course.init cid cname instr ss).course_id = cid
    ∧ (Course.init cid cname instr ss).course_name = cname
    ∧ (Course.init cid cname instr ss).enrolled_students = ss.getD []
    ∧ (Course.add_instructor c (.instr i)).1.instructor = some i :=
  ⟨rfl, rfl, rfl, rfl, rfl⟩

/-- C7.  Course.add_instructor raises the type-constraint ValueError for
every non-Instructor argument, leaving the course unchanged, and for an
Instructor argument unconditionally overwrites the current instructor:
assigning i1 to a course already holding i2 leaves i1 as the sole
instructor (last-write-wins). -/
theorem C7_add_instructor_type_check_and_overwrite (c c2 : Course)
    (i i1 i2 : Instructor) (s : Student) (tag : String) :
    Course.add_instructor c (.instr i) = ({ c with instructor := some i }, none)
    ∧ Course.add_instructor c (.student s) =
        (c, some "Only an Instructor can be assigned to the course.")
    ∧ Course.add_instructor c (.other tag) =
        (c, some "Only an Instructor can be assigned to the course.")
    ∧ (Course.add_instructor { c2 with instructor := some i2 } (.instr i1)).1.instructor
        = some i1 :=
  ⟨rfl, rfl, rfl, rfl⟩

/-- C8.  register_course on Student, assign_course on Instructor and
add_student on Course are idempotent: the second identical call returns
the same state (and the same raised error, if any) as the first, creating
no duplicate entry. -/
theorem C8_register_assign_enroll_idempotent (s : Student) (i : Instructor)
    (c : Course) (course : Course) (v : PyObj) :
    Student.register_course (Student.register_course s c) c =
      Student.register_course s c
    ∧ Instructor.assign_course (Instructor.assign_course i c) c =
        Instructor.assign_course i c
    ∧ Course.add_student (Course.add_student course v).1 v =
        Course.add_student course v := by
  refine ⟨?_, ?_, ?_⟩
  · by_cases h : c.course_id ∈ s.registered_courses
    · simp [Student.register_course, h]
    · simp [Student.register_course, h]
  · by_cases h : c.course_id ∈ i.assigned_courses
    · simp [Instructor.assign_course, h]
    · simp [Instructor.assign_course, h]
  · cases v with
    | student s0 =>
      by_cases h : s0 ∈ course.enrolled_students
      · simp [Course.add_student, h]
      · simp [Course.add_student, h]
    | instr i0 => rfl
    | other t => rfl

/-- C6.  Relational delete_course removes the course row and every
association row carrying that course_id from both student_courses and
instructor_courses while leaving the students and instructors tables
untouched; delete_student removes the student row and every
student_courses row carrying that student_id while leaving the other
tables untouched.  Afterwards no table references the deleted id. -/
theorem C6_delete_cascades (db : SchoolDb) (course_id student_id : String) :
    ((DatabaseManager.delete_course db course_id).courses.all
        fun c => !(c.course_id == course_id)) = true
    ∧ ((DatabaseManager.delete_course db course_id).student_courses.all
        fun p => !(p.2 == course_id)) = true
    ∧ ((DatabaseManager.delete_course db course_id).instructor_courses.all
        fun p => !(p.2 == course_id)) = true
    ∧ (DatabaseManager.delete_course db course_id).students = db.students
    ∧ (DatabaseManager.delete_course db course_id).instructors = db.instructors
    ∧ ((DatabaseManager.delete_student db student_id).students.all
        fun r => !(r.student_id == student_id)) = true
    ∧ ((DatabaseManager.delete_student db student_id).student_courses.all
        fun p => !(p.1 == student_id)) = true
    ∧ (DatabaseManager.delete_student db student_id).instructor_courses =
        db.instructor_courses
    ∧ (DatabaseManager.delete_student db student_id).courses = db.courses := by
  refine ⟨?_, ?_, ?_, rfl, rfl, ?_, ?_, rfl, rfl⟩ <;>
    · rw [List.all_eq_true]
      intro x hx
      exact (List.mem_filter.mp hx).2

/-- C9.  load_json fails with FileNotFoundError exactly when the file is
absent; on present content it fails with JSONDecodeError exactly when the
parse fails and otherwise returns the parsed value unmodified, with no
schema validation. -/
theorem C9_load_json {J : Type} (parse : String → Option J)
    (file : Option String) (s : String) (w : Option J)
    (hs : file = some s) (hw : parse s = w) :
    DataManager.load_json parse (none : Option String) = .error .fileNotFound
    ∧ DataManager.load_json parse file ≠ .error .fileNotFound
    ∧ DataManager.load_json parse file =
        (match w with
         | none => .error .jsonDecodeError
         | some v => .ok v) := by
  subst hs
  refine ⟨rfl, ?_, ?_⟩
  · cases hp : parse s <;> simp [DataManager.load_json, hp]
  · cases w with
    | none => simp [DataManager.load_json, hw]
    | some v => simp [DataManager.load_json, hw]

/-- Witness for C9 at a concrete parser and file. -/
theorem C9_load_json_witness :
    ((some "[]" : Option String) = some "[]"
      ∧ (fun t => if t = "[]" then some (0 : Nat) else none) "[]" = some 0)
    ∧ (DataManager.load_json (fun t => if t = "[]" then some (0 : Nat) else none)
          (none : Option String) = .error .fileNotFound
       ∧ DataManager.load_json (fun t => if t = "[]" then some (0 : Nat) else none)
          (some "[]") ≠ .error .fileNotFound
       ∧ DataManager.load_json (fun t => if t = "[]" then some (0 : Nat) else none)
          (some "[]") =
            (match (some 0 : Option Nat) with
             | none => .error .jsonDecodeError
             | some v => .ok v)) :=
  ⟨⟨rfl, by decide⟩,
    C9_load_json (fun t => if t = "[]" then some (0 : Nat) else none)
      (some "[]") "[]" (some 0) rfl (by decide)⟩

/-- C10.  validate_age returns the integer for every age in the inclusive
range 1..120 (in particular at the boundaries 1 and 120, and for a string
int() converts into that range) and fails with the range ValueError for
every integer outside the range (in particular 0 and 121), with the
number ValueError for every non-convertible string, and with the
emptiness ValueError for None. -/
theorem C10_validate_age (n m : Int) (s good : String)
    (h1 : 1 ≤ n) (h2 : n ≤ 120) (h3 : m < 1 ∨ 120 < m)
    (h4 : pyIntOfString? s = none) (h5 : pyIntOfString? good = some n) :
    Person.validate_age (.intv n) = .ok n
    ∧ Person.validate_age (.intv 1) = .ok 1
    ∧ Person.validate_age (.intv 120) = .ok 120
    ∧ Person.validate_age (.intv m) = .error "Age must be between 1 and 120."
    ∧ Person.validate_age (.intv 0) = .error "Age must be between 1 and 120."
    ∧ Person.validate_age (.intv 121) = .error "Age must be between 1 and 120."
    ∧ Person.validate_age (.strv s) = .error "Age must be a number."
    ∧ Person.validate_age (.strv good) = .ok n
    ∧ Person.validate_age .nonev = .error "Age cannot be empty" := by
  have hval : ∀ k : Int, Person.validate_age (.intv k) =
      if 1 ≤ k ∧ k ≤ 120 then .ok k
      else .error "Age must be between 1 and 120." := fun k => rfl
  have hvs : ∀ t : String, Person.validate_age (.strv t) =
      (match pyIntOfString? t with
       | none => .error "Age must be a number."
       | some k =>
         if 1 ≤ k ∧ k ≤ 120 then .ok k
         else .error "Age must be between 1 and 120.") := fun t => rfl
  refine ⟨?_, by decide, by decide, ?_, by decide, by decide, ?_, ?_, rfl⟩
  · rw [hval, if_pos ⟨h1, h2⟩]
  · rw [hval, if_neg]
    rintro ⟨ha, hb⟩
    omega
  · rw [hvs, h4]
  · rw [hvs, h5]
    simp only
    rw [if_pos ⟨h1, h2⟩]

/-- Witness for C10 at concrete inputs. -/
theorem C10_validate_age_witness :
    ((1 : Int) ≤ 5 ∧ (5 : Int) ≤ 120 ∧ ((121 : Int) < 1 ∨ (120 : Int) < 121)
      ∧ pyIntOfString? "abc" = none ∧ pyIntOfString? "5" = some 5)
    ∧ (Person.validate_age (.intv 5) = .ok 5
       ∧ Person.validate_age (.intv 1) = .ok 1
       ∧ Person.validate_age (.intv 120) = .ok 120
       ∧ Person.validate_age (.intv 121) = .error "Age must be between 1 and 120."
       ∧ Person.validate_age (.intv 0) = .error "Age must be between 1 and 120."
       ∧ Person.validate_age (.intv 121) = .error "Age must be between 1 and 120."
       ∧ Person.validate_age (.strv "abc") = .error "Age must be a number."
       ∧ Person.validate_age (.strv "5") = .ok 5
       ∧ Person.validate_age .nonev = .error "Age cannot be empty") :=
  ⟨⟨by decide, by decide, by decide, by decide, by decide⟩,
    C10_validate_age 5 121 "abc" "5" (by decide) (by decide) (by decide)
      (by decide) (by decide)⟩

/-- C5.  When the inserted student's primary key or unique email collides
with a stored row, add_student raises the duplicate-key ValueError built
from the underlying IntegrityError (which itself never escapes) and the
students table is unchanged, keeping its row count. -/
theorem C5_add_student_duplicate (t : List StudentRow) (s : StudentRow)
    (h : ∃ r ∈ t, r.student_id = s.student_id ∨ r.email = s.email) :
    (DatabaseManager.add_student t s).1 = t
    ∧ (DatabaseManager.add_student t s).1.length = t.length
    ∧ DatabaseManager.sqlInsertStudent t s =
        .error (.integrityError
          (if t.any fun r => r.student_id == s.student_id
           then "UNIQUE constraint failed: students.student_id"
           else "UNIQUE constraint failed: students.email"))
    ∧ (DatabaseManager.add_student t s).2 =
        some (.valueError ("Student already exists or email is already in use: "
          ++ (if t.any fun r => r.student_id == s.student_id
              then "UNIQUE constraint failed: students.student_id"
              else "UNIQUE constraint failed: students.email"))) := by
  by_cases hid : (t.any fun r => r.student_id == s.student_id) = true
  · have hsql : DatabaseManager.sqlInsertStudent t s =
        .error (.integrityError "UNIQUE constraint failed: students.student_id") := by
      rw [DatabaseManager.sqlInsertStudent, if_pos hid]
    refine ⟨?_, ?_, ?_, ?_⟩ <;>
      simp [DatabaseManager.add_student, hsql, hid]
  · have hem : (t.any fun r => r.email == s.email) = true := by
      obtain ⟨r, hr, hor⟩ := h
      rcases hor with hor | hor
      · exact absurd (List.any_eq_true.mpr ⟨r, hr, by simp [hor]⟩) hid
      · exact List.any_eq_true.mpr ⟨r, hr, by simp [hor]⟩
    have hsql : DatabaseManager.sqlInsertStudent t s =
        .error (.integrityError "UNIQUE constraint failed: students.email") := by
      rw [DatabaseManager.sqlInsertStudent, if_neg hid, if_pos hem]
    refine ⟨?_, ?_, ?_, ?_⟩ <;>
      simp [DatabaseManager.add_student, hsql, hid]

/-- Witness for C5: inserting a row that reuses an existing student_id. -/
theorem C5_add_student_duplicate_witness :
    (∃ r ∈ [StudentRow.mk "S1" "Ann" 20 "ann@x.com"],
        r.student_id = (StudentRow.mk "S1" "Bob" 21 "bob@x.com").student_id
        ∨ r.email = (StudentRow.mk "S1" "Bob" 21 "bob@x.com").email)
    ∧ ((DatabaseManager.add_student [StudentRow.mk "S1" "Ann" 20 "ann@x.com"]
          (StudentRow.mk "S1" "Bob" 21 "bob@x.com")).1 =
            [StudentRow.mk "S1" "Ann" 20 "ann@x.com"]
       ∧ (DatabaseManager.add_student [StudentRow.mk "S1" "Ann" 20 "ann@x.com"]
          (StudentRow.mk "S1" "Bob" 21 "bob@x.com")).1.length =
            [StudentRow.mk "S1" "Ann" 20 "ann@x.com"].length
       ∧ DatabaseManager.sqlInsertStudent [StudentRow.mk "S1" "Ann" 20 "ann@x.com"]
          (StudentRow.mk "S1" "Bob" 21 "bob@x.com") =
            .error (.integrityError
              (if [StudentRow.mk "S1" "Ann" 20 "ann@x.com"].any
                  fun r => r.student_id == (StudentRow.mk "S1" "Bob" 21 "bob@x.com").student_id
               then "UNIQUE constraint failed: students.student_id"
               else "UNIQUE constraint failed: students.email"))
       ∧ (DatabaseManager.add_student [StudentRow.mk "S1" "Ann" 20 "ann@x.com"]
          (StudentRow.mk "S1" "Bob" 21 "bob@x.com")).2 =
            some (.valueError ("Student already exists or email is already in use: "
              ++ (if [StudentRow.mk "S1" "Ann" 20 "ann@x.com"].any
                    fun r => r.student_id == (StudentRow.mk "S1" "Bob" 21 "bob@x.com").student_id
                  then "UNIQUE constraint failed: students.student_id"
                  else "UNIQUE constraint failed: students.email")))) :=
  ⟨by decide,
    C5_add_student_duplicate [StudentRow.mk "S1" "Ann" 20 "ann@x.com"]
      (StudentRow.mk "S1" "Bob" 21 "bob@x.com") (by decide)⟩

/-- A valid course whose instructor slot is occupied, used to evaluate
the serialization round-trip. -/
def roundTripCourse : Course :=
  { course_id := "C1", course_name := "Math",
    instructor := some { name := "Ann", age := 30, email := "ann@x.com",
                         instructor_id := "I1", assigned_courses := ["C1"] },
    enrolled_students := [{ name := "Bob", age := 20, email := "bob@x.com",
                            student_id := "S1", registered_courses := ["C1"] }] }

/-- C1.  Evaluating the code at the failing input: the course holds a
non-null instructor, every Person-kind field is valid, yet
from_dict(to_dict(course)) reconstructs the course with instructor None —
the constructor call inside Course.from_dict discards the rebuilt
Instructor — while the id, name and student list do survive.  The
round-trip the claim asserts therefore fails for every course with a
non-null instructor. -/
theorem C1_course_roundtrip_drops_instructor :
    roundTripCourse.instructor.isSome = true
    ∧ Course.from_dict (Course.to_dict roundTripCourse) =
        .ok { roundTripCourse with instructor := none } := by
  constructor
  · rfl
  · decide

/-- C3.  Evaluating the code at the failing input name "123" (non-empty,
non-alphabetic): the Student constructor never calls validate_name and
returns a Student holding the invalid name, instead of failing with the
name validation error; and from_dict, whose try block swallows the
ValueError of validate_name, fails with a NameError for the never-assigned
local (registered_courses for Student, name for Instructor) instead of the
specific validation error. -/
theorem C3_invalid_name_not_rejected :
    pyIsAlpha "123" = false
    ∧ Student.init "123" (.intv 20) "a@b.com" "S1" none =
        .ok { name := "123", age := 20, email := "a@b.com", student_id := "S1",
              registered_courses := [] }
    ∧ Instructor.init "123" (.intv 30) "a@b.com" "I1" none =
        .ok { name := "123", age := 30, email := "a@b.com", instructor_id := "I1",
              assigned_courses := [] }
    ∧ Student.from_dict
        { name := some "123", age := some (.intv 20), email := some "a@b.com",
          student_id := some "S1", registered_courses := some [] } =
        .error (.nameError "registered_courses")
    ∧ Instructor.from_dict
        { name := some "123", age := some (.intv 30), email := some "a@b.com",
          instructor_id := some "I1", assigned_courses := some [] } =
        .error (.nameError "name") := by
  refine ⟨by decide, by decide, by decide, ?_, ?_⟩ <;> decide

/-- C4.  JSON save is an idempotent upsert.  For a prior file holding an
array of keyed records (each a dict with duplicate-free keys containing
the key field is indexed; here prior records are assumed duplicate-free in
their keys, as parsed JSON objects are) and an incoming entity collection
(serialized records carrying the key field, with distinct keys inside each
record and pairwise distinct non-empty effective keys, as entity
collections with unique ids produce): saving twice with identical input
writes identical content both times; a record stored only in the prior
file is carried over unchanged (still stored under its key, and present in
the written list); and for a key present in both, the stored record is the
shallow merge of the old record with the incoming serialization, incoming
fields taking precedence. -/
theorem C4_save_upsert {V : Type} (vstr : V → String) (kf : String)
    (prior : List (DataManager.Record V)) (data : List (Option (DataManager.Record V)))
    (kq : String) (rq r old : DataManager.Record V)
    (hkeyed : DataManager.incomingKeyed kf data = true)
    (hinodup : DataManager.incomingNodup data = true)
    (hpnodup : DataManager.priorNodup prior = true)
    (hkeys : (DataManager.effKeys vstr kf data).Nodup)
    (hq1 : kq ∉ DataManager.effKeys vstr kf data)
    (hq2 : PyDict.dictGet (DataManager.indexRecords vstr kf prior) kq = some rq)
    (hr1 : some r ∈ data)
    (hr2 : DataManager.pyKeyOf vstr kf r ≠ "")
    (hr3 : PyDict.dictGet (DataManager.indexRecords vstr kf prior)
        (DataManager.pyKeyOf vstr kf r) = some old) :
    DataManager.save_data vstr kf (DataManager.save_data vstr kf prior data) data =
      DataManager.save_data vstr kf prior data
    ∧ PyDict.dictGet (DataManager.saveIndex vstr kf prior data) kq = some rq
    ∧ rq ∈ DataManager.save_data vstr kf prior data
    ∧ PyDict.dictGet (DataManager.saveIndex vstr kf prior data)
        (DataManager.pyKeyOf vstr kf r) = some (PyDict.dictMerge old r) := by
  have hd := DataManager.incomingKeyed_spec hkeyed
  have hnd := DataManager.incomingNodup_spec hinodup
  have hpnd := DataManager.priorNodup_spec hpnodup
  have hB : PyDict.dictGet (DataManager.saveIndex vstr kf prior data) kq = some rq :=
    (DataManager.dictGet_fold_of_not_effKey hq1).trans hq2
  refine ⟨DataManager.save_data_idem hd hnd hpnd hkeys, hB, ?_, ?_⟩
  · exact List.mem_map_of_mem Prod.snd (PyDict.dictGet_mem hB)
  · exact DataManager.upsert_lookup_single data _ r old hkeys hr1 hr2 hr3

/-- Concrete prior file contents for the C4 witness. -/
def c4Prior : List (DataManager.Record String) :=
  [[("id", "1"), ("a", "x")], [("id", "3"), ("b", "y")]]

/-- Concrete incoming collection for the C4 witness: one record updating
key 1, one new record with key 2, key 3 untouched. -/
def c4Data : List (Option (DataManager.Record String)) :=
  [some [("id", "1"), ("a", "z")], some [("id", "2"), ("c", "w")]]

/-- Witness for C4 at the concrete file state and collection. -/
theorem C4_save_upsert_witness :
    (DataManager.incomingKeyed "id" c4Data = true
     ∧ DataManager.incomingNodup c4Data = true
     ∧ DataManager.priorNodup c4Prior = true
     ∧ (DataManager.effKeys id "id" c4Data).Nodup
     ∧ "3" ∉ DataManager.effKeys id "id" c4Data
     ∧ PyDict.dictGet (DataManager.indexRecords id "id" c4Prior) "3" =
         some [("id", "3"), ("b", "y")]
     ∧ some [("id", "1"), ("a", "z")] ∈ c4Data
     ∧ DataManager.pyKeyOf id "id" [("id", "1"), ("a", "z")] ≠ ""
     ∧ PyDict.dictGet (DataManager.indexRecords id "id" c4Prior)
         (DataManager.pyKeyOf id "id" [("id", "1"), ("a", "z")]) =
         some [("id", "1"), ("a", "x")])
    ∧ (DataManager.save_data id "id" (DataManager.save_data id "id" c4Prior c4Data)
         c4Data = DataManager.save_data id "id" c4Prior c4Data
       ∧ PyDict.dictGet (DataManager.saveIndex id "id" c4Prior c4Data) "3" =
           some [("id", "3"), ("b", "y")]
       ∧ [("id", "3"), ("b", "y")] ∈ DataManager.save_data id "id" c4Prior c4Data
       ∧ PyDict.dictGet (DataManager.saveIndex id "id" c4Prior c4Data)
           (DataManager.pyKeyOf id "id" [("id", "1"), ("a", "z")]) =
           some (PyDict.dictMerge [("id", "1"), ("a", "x")] [("id", "1"), ("a", "z")])) :=
  ⟨⟨by decide, by decide, by decide, by decide, by decide, by decide, by decide,
    by decide, by decide⟩,
    C4_save_upsert id "id" c4Prior c4Data "3" [("id", "3"), ("b", "y")]
      [("id", "1"), ("a", "z")] [("id", "1"), ("a", "x")]
      (by decide) (by decide) (by decide) (by decide) (by decide) (by decide)
      (by decide) (by decide) (by decide)⟩
